import Mathlib

/-!
Verification development for the HotShot committee-election engine
(`src/src/committee.rs`) and the DA committee member state machine
(`src/consensus/src/da_member.rs`).

Byte strings are modelled as `List Nat` (each entry one byte); the
32-byte BLAKE3 output type `[u8; H_256]` is a byte list of length 32.
External cryptographic primitives (BLAKE3, threshold-signature shares)
are abstracted as fields of a `VrfModel` record: the development proves
properties of the election and member logic for every instantiation of
those primitives, and evaluates them on small concrete instantiations.
-/

namespace HotShot

/-- A byte string (each entry is one byte, `0 ≤ b < 256` for real inputs). -/
abbrev Bytes := List Nat

/-- Strict lexicographic comparison of two byte strings, as Rust's derived
`Ord` compares two `[u8; 32]` arrays (element by element; on the same
length, exhausting both means "equal", hence not less). -/
def lexLt : Bytes → Bytes → Bool
  | [], [] => false
  | [], _ :: _ => true
  | _ :: _, [] => false
  | a :: as, b :: bs => if a < b then true else if b < a then false else lexLt as bs

/-- `select_seeded_vrf_hash` of `committee.rs` (lines 20-22): a seeded VRF
hash is selected iff it is smaller than the hash selection threshold,
where `<` is Rust's lexicographic array comparison. -/
def select_seeded_vrf_hash (seeded_vrf_hash : Bytes) (selection_threshold : Bytes) : Bool :=
  lexLt seeded_vrf_hash selection_threshold

/-- Big-endian 8-byte encoding of a `u64`, as `u64::to_be_bytes`. -/
def be64 (n : Nat) : Bytes :=
  [n / 2 ^ 56 % 256, n / 2 ^ 48 % 256, n / 2 ^ 40 % 256, n / 2 ^ 32 % 256,
   n / 2 ^ 24 % 256, n / 2 ^ 16 % 256, n / 2 ^ 8 % 256, n % 256]

/-- The bytes of an ASCII domain-separation string. -/
def strBytes (s : String) : Bytes := s.data.map Char.toNat

/-- The external cryptographic primitives of `committee.rs`, abstracted:
`hash` is BLAKE3-256 over the concatenation of the incremental `update`
calls; `prove`, `proofBytes`, `verifyShare` and `publicKeyShare` are the
threshold-signature-share operations of the `threshold_crypto` crate
(`SecretKeyShare::sign`, `SignatureShare::to_bytes`,
`PublicKeyShare::verify`, `SecretKeyShare::public_key_share`).
`S` is the secret-key-share type, `P` the proof (signature-share) type and
`K` the public-key-share type. -/
structure VrfModel (S P K : Type) where
  hash : Bytes → Bytes
  prove : S → Bytes → P
  proofBytes : P → Bytes
  verifyShare : P → K → Bytes → Bool
  publicKeyShare : S → K

/-- `PubKey` of the repository: a node's public key, carrying its
threshold public-key share (`node`) and its numeric participant id. -/
structure PubKey (K : Type) where
  node : K
  nid : Nat
deriving DecidableEq

/-- The stake table `HashMap<PubKey, u64>`, modelled as its sequence of
entries in the map's iteration order (the order `table.iter()` yields). -/
abbrev StakeTable (K : Type) := List (PubKey K × Nat)

/-- `table.get(pub_key)` on the stake table: the stake of the first entry
whose key equals `pub_key`. -/
def tableGet {K : Type} [DecidableEq K] (t : StakeTable K) (pk : PubKey K) : Option Nat :=
  (t.find? (fun r => decide (r.1 = pk))).map (fun r => r.2)

namespace DynamicCommittee

variable {S P K : Type}

/-- `hash_commitee_seed` (committee.rs lines 71-77): BLAKE3 of
`"Vote token" ‖ BE64(view_number) ‖ next_state`. -/
def hash_commitee_seed (M : VrfModel S P K) (view_number : Nat) (next_state : Bytes) : Bytes :=
  M.hash (strBytes "Vote token" ++ be64 view_number ++ next_state)

/-- `Vrf::evaluate` (committee.rs lines 130-135): BLAKE3 of
`"VRF output" ‖ serialize(proof)`. -/
def evaluate (M : VrfModel S P K) (proof : P) : Bytes :=
  M.hash (strBytes "VRF output" ++ M.proofBytes proof)

/-- `select_stake` (committee.rs lines 86-114): for each stake index
`s ∈ [0, total_stake)` of `pub_key` (`total_stake = 0` when `pub_key` is
absent, returning the empty set), `s` is selected iff
`BLAKE3("Seeded VRF" ‖ vrf_output ‖ BE64(s))` is below the threshold. -/
def select_stake [DecidableEq K] (M : VrfModel S P K) (table : StakeTable K)
    (selection_threshold : Bytes) (pub_key : PubKey K) (token : P) : Finset Nat :=
  let out := evaluate M token
  match tableGet table pub_key with
  | none => ∅
  | some total_stake =>
      (Finset.range total_stake).filter fun stake =>
        select_seeded_vrf_hash (M.hash (strBytes "Seeded VRF" ++ out ++ be64 stake))
          selection_threshold = true

/-- `get_votes` (committee.rs lines 209-231): verify the VRF proof against
the claimed key share and the committee seed, compute the selected stake,
and return the validated triple unless verification failed or the
selected set is empty. -/
def get_votes [DecidableEq K] (M : VrfModel S P K) (table : StakeTable K)
    (selection_threshold : Bytes) (view_number : Nat) (pub_key : PubKey K) (token : P)
    (next_state : Bytes) : Option (PubKey K × P × Finset Nat) :=
  let h := hash_commitee_seed M view_number next_state
  if M.verifyShare token pub_key.node h = false then none
  else
    let selected_stake := select_stake M table selection_threshold pub_key token
    if selected_stake = ∅ then none
    else some (pub_key, token, selected_stake)

/-- `make_vote_token` (committee.rs lines 241-261): prove over the
committee seed, look up the own public key share in the table, and return
the token unless the key is absent or the selected stake is empty. -/
def make_vote_token [DecidableEq K] (M : VrfModel S P K) (table : StakeTable K)
    (selection_threshold : Bytes) (view_number : Nat) (private_key : S)
    (next_state : Bytes) : Option P :=
  let h := hash_commitee_seed M view_number next_state
  let token := M.prove private_key h
  let pub_key_share := M.publicKeyShare private_key
  match table.find? (fun x => decide (x.1.node = pub_key_share)) with
  | none => none
  | some entry =>
      let selected_stake := select_stake M table selection_threshold entry.1 token
      if selected_stake = ∅ then none
      else some token

/-- The total stake `T = Σ stake` accumulated by `get_leader`'s first loop
(committee.rs lines 174-177). -/
def total_stake {K : Type} (t : StakeTable K) : Nat := (t.map (fun r => r.2)).sum

/-- The second loop of `get_leader` (committee.rs lines 187-193): running
stake sum starting at `acc`, returning the first record whose running sum
strictly exceeds the drawn value `r`; `none` models the trailing
`unreachable!`. -/
def leaderSearch {K : Type} (t : StakeTable K) (r acc : Nat) : Option (PubKey K × Nat) :=
  match t with
  | [] => none
  | rec' :: rest => if acc + rec'.2 > r then some rec' else leaderSearch rest r (acc + rec'.2)

/-- `get_leader` (committee.rs lines 173-195) with the PRNG draw
abstracted: the code seeds a ChaCha20 PRNG from
`BLAKE3("Committee seed" ‖ BE64(view_number))` and draws
`r = gen_range(0, total_stake)`, so `r` depends only on the view number
and the total stake and satisfies `r < total_stake` (`gen_range` panics
when the range `[0, total_stake)` is empty). The table is iterated in its
hash-map iteration order. -/
def get_leader {K : Type} (t : StakeTable K) (r : Nat) : Option (PubKey K) :=
  (leaderSearch t r 0).map (fun rec' => rec'.1)

end DynamicCommittee

/-! ## DA committee member (`src/consensus/src/da_member.rs`)

Type parameters: `St` the application state, `Dl` the block deltas, `Q`
the quorum certificate, `D` the 32-byte digest of leaf and QC commits,
`B` the block commitment, `Sig` signatures, `Sender` signature keys /
senders, `Tok` vote tokens, `E` the API's error type, `SCom` the
state-commitment alternative stored in a leaf. -/

/-- `ViewInner` of `consensus/src/utils.rs`: a view decided on a leaf
digest, or known failed. (`View` merely wraps a `ViewInner`.) -/
inductive ViewInner (D : Type) where
  | leaf (d : D)
  | failed
deriving DecidableEq

/-- `DALeaf` as constructed by `find_valid_msg` (da_member.rs lines
138-148): `state` is `Left(state)` for a concrete application state or
`Right` for a mere state commitment. -/
structure DALeaf (Q D Dl St SCom : Type) where
  view_number : Nat
  height : Nat
  justify_qc : Q
  parent_commitment : D
  deltas : Dl
  state : St ⊕ SCom
  rejected : List Dl
  timestamp : Int
  proposer_id : Bytes
deriving DecidableEq

/-- The shared consensus state the member reads and writes: the
view-indexed state map and the content-addressed leaf store. -/
structure Consensus (D Q Dl St SCom : Type) where
  state_map : Nat → Option (ViewInner D)
  saved_leaves : D → Option (DALeaf Q D Dl St SCom)

/-- `ProcessedConsensusMessage` as the member sees it: a leader proposal
(deltas, signature, the proposal's view number, the sender), a vote, or a
next-view interrupt. -/
inductive PCMessage (Dl Sig Sender : Type) where
  | proposal (deltas : Dl) (signature : Sig) (pview : Nat) (sender : Sender)
  | vote (v : Nat)
  | nextViewInterrupt (v : Nat)

/-- `view_number()` of a processed consensus message. -/
def PCMessage.viewNumber {Dl Sig Sender : Type} : PCMessage Dl Sig Sender → Nat
  | .proposal _ _ v _ => v
  | .vote v => v
  | .nextViewInterrupt v => v

/-- The `DAVote` the member direct-sends to the leader (da_member.rs
lines 177-183). -/
structure DAVote (D B Sig Tok : Type) where
  justify_qc_commitment : D
  signature : Sig
  block_commitment : B
  current_view : Nat
  vote_token : Tok
deriving DecidableEq

/-- The capabilities the member task calls out to: leaf/block `commit()`,
the QC accessors, leader-key signature validation, the parent state's
`validate_block` and `append`, and the `ConsensusApi` operations. `now`
is the wall-clock timestamp of the run and `send_ok` whether the
direct-send succeeds (neither influences control flow relevant here). -/
structure MemberApi (St Dl Q D B Sig Sender Tok E SCom : Type) where
  leafCommit : DALeaf Q D Dl St SCom → D
  blockCommit : Dl → B
  qcView : Q → Nat
  qcCommit : Q → D
  validate : Sender → Sig → B → Bool
  validate_block : St → Dl → Nat → Bool
  append : St → Dl → Nat → Option St
  make_vote_token : Nat → Except E (Option Tok)
  sign_da_vote : B → Sig
  get_leader : Nat → Sender
  send_ok : Bool
  now : Int
  senderBytes : Sender → Bytes

/-- The per-view member: its current view and the high QC it extends. -/
structure DAMember (Q : Type) where
  cur_view : Nat
  high_qc : Q

section Member

variable {St Dl Q D B Sig Sender Tok E SCom : Type}

/-- `parent_leaf` (da_member.rs lines 69-92): resolve the high QC's view
in the state map; `none` when the view is absent, failed, or its leaf
digest is not in `saved_leaves`. -/
def parent_leaf (api : MemberApi St Dl Q D B Sig Sender Tok E SCom) (m : DAMember Q)
    (c : Consensus D Q Dl St SCom) : Option (DALeaf Q D Dl St SCom) :=
  match c.state_map (api.qcView m.high_qc) with
  | some (ViewInner.leaf d) => c.saved_leaves d
  | some ViewInner.failed => none
  | none => none

/-- `find_valid_msg` (da_member.rs lines 97-214): drain the proposal
channel (modelled as the list of messages it will yield; the empty list
is the channel error / closed case, which returns `None`). The result
pairs the decided leaf, if any, with the direct messages sent. -/
def find_valid_msg [DecidableEq Sender] (api : MemberApi St Dl Q D B Sig Sender Tok E SCom)
    (m : DAMember Q) (view_leader_key : Sender) (c : Consensus D Q Dl St SCom) :
    List (PCMessage Dl Sig Sender) →
      Option (DALeaf Q D Dl St SCom) × List (Sender × DAVote D B Sig Tok)
  | [] => (none, [])
  | msg :: rest =>
    if msg.viewNumber ≠ m.cur_view then find_valid_msg api m view_leader_key c rest
    else
      match msg with
      | .proposal deltas signature _ sender =>
        if sender ≠ view_leader_key then find_valid_msg api m view_leader_key c rest
        else
          match parent_leaf api m c with
          | none => (none, [])
          | some parent =>
            match parent.state with
            | Sum.inr _ => (none, [])
            | Sum.inl parent_state =>
              if api.validate_block parent_state deltas m.cur_view then (none, [])
              else
                match api.append parent_state deltas m.cur_view with
                | none => (none, [])
                | some state =>
                  let leaf : DALeaf Q D Dl St SCom :=
                    { view_number := m.cur_view
                      height := parent.height + 1
                      justify_qc := m.high_qc
                      parent_commitment := api.leafCommit parent
                      deltas := deltas
                      state := Sum.inl state
                      rejected := []
                      timestamp := api.now
                      proposer_id := api.senderBytes sender }
                  let block_commitment := api.blockCommit deltas
                  if api.validate view_leader_key signature block_commitment = false then
                    find_valid_msg api m view_leader_key c rest
                  else
                    match api.make_vote_token m.cur_view with
                    | Except.error _ => (some leaf, [])
                    | Except.ok none => (some leaf, [])
                    | Except.ok (some vote_token) =>
                      (some leaf,
                        [(sender,
                          { justify_qc_commitment := api.qcCommit m.high_qc
                            signature := api.sign_da_vote block_commitment
                            block_commitment := block_commitment
                            current_view := m.cur_view
                            vote_token := vote_token })])
      | .vote _ => find_valid_msg api m view_leader_key c rest
      | .nextViewInterrupt _ => find_valid_msg api m view_leader_key c rest

/-- `run_view` (da_member.rs lines 218-248): look up the view leader, run
`find_valid_msg`, and on a decided leaf insert `Leaf{leaf.commit()}` at
`cur_view` and the leaf body at its digest (`store_leaf` is
persistence-only and carries no in-memory effect). Returns the updated
consensus state and the direct messages sent. -/
def run_view [DecidableEq Sender] [DecidableEq D]
    (api : MemberApi St Dl Q D B Sig Sender Tok E SCom) (m : DAMember Q)
    (c : Consensus D Q Dl St SCom) (msgs : List (PCMessage Dl Sig Sender)) :
    Consensus D Q Dl St SCom × List (Sender × DAVote D B Sig Tok) :=
  match find_valid_msg api m (api.get_leader m.cur_view) c msgs with
  | (none, sent) => (c, sent)
  | (some leaf, sent) =>
      ({ state_map := fun v =>
           if v = m.cur_view then some (ViewInner.leaf (api.leafCommit leaf)) else c.state_map v
         saved_leaves := fun d =>
           if d = api.leafCommit leaf then some leaf else c.saved_leaves d }, sent)

/-- The spec's state-map invariant: every `Leaf{d}` entry at view `V` has
an existing saved leaf with view `V`. -/
def leafMapInvariant (c : Consensus D Q Dl St SCom) : Prop :=
  ∀ V d, c.state_map V = some (ViewInner.leaf d) →
    ∃ l, c.saved_leaves d = some l ∧ l.view_number = V

end Member

/-! ## Theorems about the committee election engine -/

open DynamicCommittee

/-- The selection threshold of claim C4: a 256-bit value with only the
high bit set, `0x80 00…00`. -/
def tau128 : Bytes := 128 :: List.replicate 31 0

/-- No byte string is lexicographically below the all-zero string of its
own length. -/
theorem lexLt_replicate_zero (rest : Bytes) (n : Nat) (h : rest.length = n) :
    lexLt rest (List.replicate n 0) = false := by
  induction rest generalizing n with
  | nil =>
    subst h
    rfl
  | cons a as ih =>
    subst h
    rw [List.length_cons, List.replicate_succ]
    simp only [lexLt]
    rw [if_neg (Nat.not_lt_zero a)]
    by_cases h0 : 0 < a
    · rw [if_pos h0]
    · rw [if_neg h0]
      exact ih as.length rfl

/-- C4 (amended): with threshold `τ = 0x80 00…00`,
`select_seeded_vrf_hash` returns true for the all-zero hash, and false
for every 32-byte hash whose first byte is at least `0x80` — in
particular for `h = τ` itself (strict `<`), for hashes whose bytes begin
`0x80 … 01`, and for hashes whose first byte is `0xC8`. -/
theorem select_seeded_vrf_hash_tau128 :
    select_seeded_vrf_hash (List.replicate 32 0) tau128 = true ∧
    ∀ b rest, 128 ≤ b → rest.length = 31 →
      select_seeded_vrf_hash (b :: rest) tau128 = false := by
  refine ⟨by decide, ?_⟩
  intro b rest hb hlen
  simp only [select_seeded_vrf_hash, tau128, lexLt]
  rw [if_neg (by omega : ¬ b < 128)]
  by_cases h : 128 < b
  · rw [if_pos h]
  · rw [if_neg h]
    exact lexLt_replicate_zero rest 31 hlen

/-- C4 counterexample: the claim asserts `select_seeded_vrf_hash(h, τ)`
returns true for `h = τ = 0x80 00…00`; on the code the strict
lexicographic comparison makes it false. -/
theorem select_seeded_vrf_hash_tau128_at_threshold :
    select_seeded_vrf_hash tau128 tau128 = false := by decide

/-- C6: `select_stake` returns exactly the set of stake indices
`s ∈ [0, stake_p)` whose seeded VRF hash is lexicographically below the
threshold, where `stake_p` is the participant's table entry (0 when
absent), and its cardinality never exceeds that entry. -/
theorem select_stake_characterization {S P K : Type} [DecidableEq K] (M : VrfModel S P K)
    (table : StakeTable K) (threshold : Bytes) (pk : PubKey K) (token : P) :
    (∀ s, s ∈ select_stake M table threshold pk token ↔
       s < (tableGet table pk).getD 0 ∧
       select_seeded_vrf_hash
         (M.hash (strBytes "Seeded VRF" ++ evaluate M token ++ be64 s)) threshold = true) ∧
    (select_stake M table threshold pk token).card ≤ (tableGet table pk).getD 0 := by
  unfold select_stake
  cases h : tableGet table pk with
  | none => simp
  | some stake =>
    constructor
    · intro s
      simp [Finset.mem_filter, Finset.mem_range]
    · calc ((Finset.range stake).filter _).card ≤ (Finset.range stake).card :=
            Finset.card_filter_le _ _
        _ = stake := Finset.card_range stake

/-- C5: `get_votes` returns `Some (pk, token, selected)` exactly when the
VRF proof verifies against the claimed key share and the committee seed
and `selected = select_stake(...)` is non-empty; in every other case
(verification failure or empty selected set, which covers a `pk` absent
from the table) it returns `None`, and it never returns any other
triple. -/
theorem get_votes_characterization {S P K : Type} [DecidableEq K] (M : VrfModel S P K)
    (table : StakeTable K) (threshold : Bytes) (v : Nat) (pk : PubKey K) (token : P)
    (ns : Bytes) :
    (∀ result, get_votes M table threshold v pk token ns = some result ↔
       (M.verifyShare token pk.node (hash_commitee_seed M v ns) = true ∧
        select_stake M table threshold pk token ≠ ∅ ∧
        result = (pk, token, select_stake M table threshold pk token))) ∧
    (get_votes M table threshold v pk token ns = none ↔
       (M.verifyShare token pk.node (hash_commitee_seed M v ns) = false ∨
        select_stake M table threshold pk token = ∅)) := by
  unfold get_votes
  cases hv : M.verifyShare token pk.node (hash_commitee_seed M v ns) <;>
    by_cases hs : select_stake M table threshold pk token = ∅ <;>
      simp [hv, hs, eq_comm]

/-- C3 counterexample: two stake tables that are equal as mappings (each
maps participant `⟨0,0⟩` to stake 1 and participant `⟨1,1⟩` to stake 1;
their entry lists are permutations of one another) but iterated in
different orders elect different leaders for every possible draw
`r ∈ [0, T) = {0, 1}`: the code iterates the `HashMap` in its own
iteration order, not in canonical order sorted by participant id. -/
theorem get_leader_order_dependent :
    List.Perm [((⟨0, 0⟩ : PubKey Nat), 1), (⟨1, 1⟩, 1)] [(⟨1, 1⟩, 1), (⟨0, 0⟩, 1)] ∧
    total_stake [((⟨0, 0⟩ : PubKey Nat), 1), (⟨1, 1⟩, 1)] = 2 ∧
    total_stake [((⟨1, 1⟩ : PubKey Nat), 1), (⟨0, 0⟩, 1)] = 2 ∧
    get_leader [((⟨0, 0⟩ : PubKey Nat), 1), (⟨1, 1⟩, 1)] 0 ≠
      get_leader [(⟨1, 1⟩, 1), (⟨0, 0⟩, 1)] 0 ∧
    get_leader [((⟨0, 0⟩ : PubKey Nat), 1), (⟨1, 1⟩, 1)] 1 ≠
      get_leader [(⟨1, 1⟩, 1), (⟨0, 0⟩, 1)] 1 := by decide

/-- C3 (amended): `get_leader` is a pure function of the table's entry
sequence and the draw, so when the iteration order is canonical — both
tables strictly sorted by participant id — equality as mappings (the
entry lists are permutations of one another) forces the same elected
participant. -/
theorem get_leader_canonical_deterministic {K : Type} [DecidableEq K]
    (t1 t2 : StakeTable K) (r : Nat) (hperm : t1.Perm t2)
    (h1 : t1.Pairwise (fun a b => a.1.nid < b.1.nid))
    (h2 : t2.Pairwise (fun a b => a.1.nid < b.1.nid)) :
    get_leader t1 r = get_leader t2 r := by
  haveI : IsAntisymm (PubKey K × Nat) (fun a b => a.1.nid < b.1.nid) :=
    ⟨fun a b h h' => absurd h' (Nat.lt_asymm h)⟩
  rw [List.eq_of_perm_of_sorted hperm h1 h2]

/-- Witness for the amended C3 at a concrete sorted table. -/
theorem get_leader_canonical_deterministic_witness :
    get_leader [((⟨0, 0⟩ : PubKey Nat), 1), (⟨1, 1⟩, 2)] 0 =
      get_leader [((⟨0, 0⟩ : PubKey Nat), 1), (⟨1, 1⟩, 2)] 0 :=
  get_leader_canonical_deterministic _ _ 0 (List.Perm.refl _) (by decide) (by decide)

/-- The running-sum loop of `get_leader` finds a record with positive
stake whenever the drawn value lies between the accumulator and the
accumulator plus the remaining total stake. -/
theorem leaderSearch_finds {K : Type} (t : StakeTable K) :
    ∀ r acc, acc ≤ r → r < acc + total_stake t →
      ∃ rec', leaderSearch t r acc = some rec' ∧ rec' ∈ t ∧ 1 ≤ rec'.2 := by
  induction t with
  | nil =>
    intro r acc h1 h2
    simp only [total_stake, List.map_nil, List.sum_nil] at h2
    omega
  | cons e rest ih =>
    intro r acc h1 h2
    simp only [total_stake, List.map_cons, List.sum_cons] at h2
    by_cases hc : acc + e.2 > r
    · exact ⟨e, by simp [leaderSearch, hc], List.mem_cons_self e rest, by omega⟩
    · obtain ⟨rec', hs, hmem, hstake⟩ :=
        ih r (acc + e.2) (by omega) (by simp only [total_stake]; omega)
      exact ⟨rec', by simp [leaderSearch, hc, hs], List.mem_cons_of_mem e hmem, hstake⟩

/-- C10: when the drawn value is below the total stake — as
`gen_range(0, T)` guarantees whenever `T > 0`, and `T > 0` is exactly
what keeps `gen_range` from panicking on an empty range — `get_leader`
returns normally (never reaching the trailing `unreachable!`, modelled
as `none`), and the elected participant's table record carries stake at
least 1: a participant registered with zero stake is never elected. -/
theorem get_leader_returns_positive_stake {K : Type} (t : StakeTable K) (r : Nat)
    (hr : r < total_stake t) :
    ∃ rec', rec' ∈ t ∧ 1 ≤ rec'.2 ∧ get_leader t r = some rec'.1 := by
  obtain ⟨rec', hs, hmem, hstake⟩ := leaderSearch_finds t r 0 (Nat.zero_le r) (by omega)
  exact ⟨rec', hmem, hstake, by simp [get_leader, hs]⟩

/-- Witness for C10 at a concrete table with a zero-stake participant. -/
theorem get_leader_returns_positive_stake_witness :
    ∃ rec', rec' ∈ ([((⟨0, 0⟩ : PubKey Nat), 0), (⟨1, 1⟩, 2)] : StakeTable Nat) ∧
      1 ≤ rec'.2 ∧ get_leader [((⟨0, 0⟩ : PubKey Nat), 0), (⟨1, 1⟩, 2)] 1 = some rec'.1 :=
  get_leader_returns_positive_stake _ 1 (by decide)

/-- A concrete instantiation of the abstract cryptographic primitives
used to evaluate the election engine: keys, proofs and shares are `Nat`,
a proof is the signing key itself and verification compares the proof
with the key share. -/
def natVrf : VrfModel Nat Nat Nat :=
  { hash := fun _ => [0]
    prove := fun sk _ => sk
    proofBytes := fun p => [p]
    verifyShare := fun p k _ => decide (p = k)
    publicKeyShare := fun sk => sk }

/-- C9: token creation and token validation agree: when the secret key's
public key share appears in the table (`hfind` names the entry
`make_vote_token`'s `find` locates), the VRF verifies proofs produced
under the matching key (`hvrf`), and `make_vote_token` returns a token,
then `get_votes` with the matching table key accepts that token with the
same non-empty selected stake set computed during creation. -/
theorem make_vote_token_get_votes_agree {S P K : Type} [DecidableEq K] (M : VrfModel S P K)
    (table : StakeTable K) (threshold : Bytes) (v : Nat) (sk : S) (ns : Bytes)
    (entry : PubKey K × Nat) (tok : P)
    (hfind : table.find? (fun x => decide (x.1.node = M.publicKeyShare sk)) = some entry)
    (hvrf : ∀ input, M.verifyShare (M.prove sk input) (M.publicKeyShare sk) input = true)
    (hmk : make_vote_token M table threshold v sk ns = some tok) :
    get_votes M table threshold v entry.1 tok ns =
      some (entry.1, tok, select_stake M table threshold entry.1 tok) ∧
    select_stake M table threshold entry.1 tok ≠ ∅ := by
  have hnode : entry.1.node = M.publicKeyShare sk := by
    have := List.find?_some hfind
    simpa using this
  simp only [make_vote_token, hfind] at hmk
  by_cases hsel :
      select_stake M table threshold entry.1 (M.prove sk (hash_commitee_seed M v ns)) = ∅
  · rw [if_pos hsel] at hmk
    exact absurd hmk (by simp)
  · rw [if_neg hsel] at hmk
    have htok : M.prove sk (hash_commitee_seed M v ns) = tok := by
      injection hmk
    subst htok
    refine ⟨?_, hsel⟩
    simp only [get_votes, hnode]
    rw [hvrf (hash_commitee_seed M v ns)]
    simp [hsel]

/-- Witness for C9: a concrete model in which the proof is the secret
key itself, verification checks proof-key equality, and the single
participant's two stake units are both selected. -/
theorem make_vote_token_get_votes_agree_witness :
    get_votes natVrf [((⟨5, 0⟩ : PubKey Nat), 2)] [1] 10 ⟨5, 0⟩ 5 [20] =
      some (⟨5, 0⟩, 5, select_stake natVrf [((⟨5, 0⟩ : PubKey Nat), 2)] [1] ⟨5, 0⟩ 5) ∧
    select_stake natVrf [((⟨5, 0⟩ : PubKey Nat), 2)] [1] ⟨5, 0⟩ 5 ≠ ∅ :=
  make_vote_token_get_votes_agree natVrf [(⟨5, 0⟩, 2)] [1] 10 5 [20] (⟨5, 0⟩, 2) 5
    (by decide) (fun _ => by simp [natVrf]) (by decide)

/-! ## Theorems about the DA committee member -/

section MemberTheorems

variable {St Dl Q D B Sig Sender Tok E SCom : Type}

/-- C7: if the state map has no entry at the high QC's view, or that
entry is `Failed`, or the referenced leaf digest is absent from
`saved_leaves`, the member task returns without writing any entry to
`state_map` or `saved_leaves` and without sending any direct message:
`run_view` leaves the consensus state unchanged and sends nothing,
whatever the channel yields. -/
theorem member_missing_parent_no_effect [DecidableEq Sender] [DecidableEq D]
    (api : MemberApi St Dl Q D B Sig Sender Tok E SCom) (m : DAMember Q)
    (c : Consensus D Q Dl St SCom) (msgs : List (PCMessage Dl Sig Sender))
    (hfail : c.state_map (api.qcView m.high_qc) = none ∨
             c.state_map (api.qcView m.high_qc) = some ViewInner.failed ∨
             ∃ d, c.state_map (api.qcView m.high_qc) = some (ViewInner.leaf d) ∧
               c.saved_leaves d = none) :
    run_view api m c msgs = (c, []) := by
  have hp : parent_leaf api m c = none := by
    unfold parent_leaf
    rcases hfail with h | h | ⟨d, h1, h2⟩
    · rw [h]
    · rw [h]
    · rw [h1]
      exact h2
  have hf : ∀ (key : Sender) (ms : List (PCMessage Dl Sig Sender)),
      find_valid_msg api m key c ms = (none, []) := by
    intro key ms
    induction ms with
    | nil => rfl
    | cons msg rest ih =>
      cases msg with
      | proposal deltas signature pv sender =>
        simp only [find_valid_msg]
        by_cases hv : (PCMessage.proposal deltas signature pv sender :
            PCMessage Dl Sig Sender).viewNumber ≠ m.cur_view
        · rw [if_pos hv]
          exact ih
        · rw [if_neg hv]
          by_cases hs : sender ≠ key
          · rw [if_pos hs]
            exact ih
          · rw [if_neg hs, hp]
      | vote v =>
        simp only [find_valid_msg]
        by_cases hv : (PCMessage.vote v : PCMessage Dl Sig Sender).viewNumber ≠ m.cur_view
        · rw [if_pos hv]
          exact ih
        · rw [if_neg hv]
          exact ih
      | nextViewInterrupt v =>
        simp only [find_valid_msg]
        by_cases hv : (PCMessage.nextViewInterrupt v :
            PCMessage Dl Sig Sender).viewNumber ≠ m.cur_view
        · rw [if_pos hv]
          exact ih
        · rw [if_neg hv]
          exact ih
  unfold run_view
  rw [hf (api.get_leader m.cur_view) msgs]

/-- Whenever `find_valid_msg` decides on a leaf, that leaf was built from
the resolved parent: its view is `cur_view`, its height is the parent's
height plus one, its justify QC is the high QC and its parent commitment
is the parent's commit. -/
theorem find_valid_msg_some_shape [DecidableEq Sender]
    (api : MemberApi St Dl Q D B Sig Sender Tok E SCom) (m : DAMember Q) (key : Sender)
    (c : Consensus D Q Dl St SCom) :
    ∀ (msgs : List (PCMessage Dl Sig Sender)) (leaf : DALeaf Q D Dl St SCom)
      (sent : List (Sender × DAVote D B Sig Tok)),
      find_valid_msg api m key c msgs = (some leaf, sent) →
      ∃ parent parent_state,
        parent_leaf api m c = some parent ∧ parent.state = Sum.inl parent_state ∧
        leaf.view_number = m.cur_view ∧ leaf.height = parent.height + 1 ∧
        leaf.justify_qc = m.high_qc ∧ leaf.parent_commitment = api.leafCommit parent := by
  intro msgs
  induction msgs with
  | nil =>
    intro leaf sent h
    exact absurd h (by simp [find_valid_msg])
  | cons msg rest ih =>
    intro leaf sent h
    cases msg with
    | proposal deltas signature pv sender =>
      simp only [find_valid_msg] at h
      split at h
      · exact ih leaf sent h
      · split at h
        · exact ih leaf sent h
        · split at h
          · exact absurd h (by simp)
          · rename_i parent hp
            split at h
            · exact absurd h (by simp)
            · rename_i ps hst
              split at h
              · exact absurd h (by simp)
              · split at h
                · exact absurd h (by simp)
                · rename_i st ha
                  split at h
                  · exact ih leaf sent h
                  · split at h <;>
                    · simp only [Prod.mk.injEq, Option.some.injEq] at h
                      obtain ⟨hleaf, -⟩ := h
                      subst hleaf
                      exact ⟨parent, ps, hp, hst, rfl, rfl, rfl, rfl⟩
    | vote v =>
      simp only [find_valid_msg] at h
      split at h
      · exact ih leaf sent h
      · exact ih leaf sent h
    | nextViewInterrupt v =>
      simp only [find_valid_msg] at h
      split at h
      · exact ih leaf sent h
      · exact ih leaf sent h

/-- C8: after a successful member decision for `cur_view` — the task
decided on `leaf` — the commit writes `state_map[cur_view] = Leaf{d}`
with `d = leaf.commit()` and `saved_leaves[d] = leaf`, the leaf's fields
tie it to the resolved parent (`view = cur_view`,
`height = parent.height + 1`, `justify_qc = high_qc`,
`parent_commitment = parent.commit()`), and the invariant that every
`Leaf{d}` state-map entry at view `V` has an existing saved leaf of view
`V` is preserved (`hfresh`: the new leaf's digest does not collide with
a digest already recorded at a different view). -/
theorem member_commit_updates_maps [DecidableEq Sender] [DecidableEq D]
    (api : MemberApi St Dl Q D B Sig Sender Tok E SCom) (m : DAMember Q)
    (c : Consensus D Q Dl St SCom) (msgs : List (PCMessage Dl Sig Sender))
    (leaf : DALeaf Q D Dl St SCom) (sent : List (Sender × DAVote D B Sig Tok))
    (hres : find_valid_msg api m (api.get_leader m.cur_view) c msgs = (some leaf, sent))
    (hinv : leafMapInvariant c)
    (hfresh : ∀ V d, V ≠ m.cur_view → c.state_map V = some (ViewInner.leaf d) →
        d ≠ api.leafCommit leaf) :
    (run_view api m c msgs).1.state_map m.cur_view
        = some (ViewInner.leaf (api.leafCommit leaf)) ∧
    (run_view api m c msgs).1.saved_leaves (api.leafCommit leaf) = some leaf ∧
    leaf.view_number = m.cur_view ∧
    (∃ parent, parent_leaf api m c = some parent ∧ leaf.height = parent.height + 1 ∧
       leaf.justify_qc = m.high_qc ∧ leaf.parent_commitment = api.leafCommit parent) ∧
    leafMapInvariant (run_view api m c msgs).1 := by
  obtain ⟨parent, ps, hp, hst, hleafview, hh, hj, hpc⟩ :=
    find_valid_msg_some_shape api m (api.get_leader m.cur_view) c msgs leaf sent hres
  have hrun : (run_view api m c msgs).1 =
      { state_map := fun v =>
          if v = m.cur_view then some (ViewInner.leaf (api.leafCommit leaf))
          else c.state_map v
        saved_leaves := fun d =>
          if d = api.leafCommit leaf then some leaf else c.saved_leaves d } := by
    unfold run_view
    rw [hres]
  rw [hrun]
  refine ⟨by simp, by simp, hleafview, ⟨parent, hp, hh, hj, hpc⟩, ?_⟩
  intro V d hVd
  dsimp only at hVd ⊢
  split at hVd
  · rename_i hV
    subst hV
    have h1 : ViewInner.leaf (api.leafCommit leaf) = ViewInner.leaf d :=
      Option.some.inj hVd
    obtain rfl : api.leafCommit leaf = d := by injection h1
    refine ⟨leaf, ?_, hleafview⟩
    rw [if_pos rfl]
  · rename_i hV
    obtain ⟨l, hl, hlv⟩ := hinv V d hVd
    have hd : d ≠ api.leafCommit leaf := hfresh V d hV hVd
    refine ⟨l, ?_, hlv⟩
    rw [if_neg hd]
    exact hl

/-- C2 (amended): when a leader proposal for the current view passes the
structural pre-check and the state apply, but the leader-key signature
over `commit(deltas)` fails to verify, the member warns and continues
draining the channel — the proposal is skipped and processing proceeds
with the remaining messages. (The signature is checked after the state
apply, not before.) -/
theorem member_bad_signature_continues [DecidableEq Sender]
    (api : MemberApi St Dl Q D B Sig Sender Tok E SCom) (m : DAMember Q) (key : Sender)
    (c : Consensus D Q Dl St SCom) (rest : List (PCMessage Dl Sig Sender))
    (deltas : Dl) (signature : Sig) (pv : Nat) (sender : Sender)
    (parent : DALeaf Q D Dl St SCom) (ps : St) (st : St)
    (hview : pv = m.cur_view) (hsender : sender = key)
    (hparent : parent_leaf api m c = some parent)
    (hstate : parent.state = Sum.inl ps)
    (hvb : api.validate_block ps deltas m.cur_view = false)
    (happ : api.append ps deltas m.cur_view = some st)
    (hsig : api.validate key signature (api.blockCommit deltas) = false) :
    find_valid_msg api m key c (PCMessage.proposal deltas signature pv sender :: rest) =
      find_valid_msg api m key c rest := by
  subst hview hsender
  simp [find_valid_msg, PCMessage.viewNumber, hparent, hstate, hvb, happ, hsig]

/-- Modelled from the spec: `validate_block` is the structural validity
predicate of the `State` trait of `hotshot_types` (its code is not under
`src/`); per the spec it is "a structural pre-check that MUST pass",
that is, it returns `true` exactly when the deltas are structurally
valid for the view. -/
def blockIsValid (api : MemberApi St Dl Q D B Sig Sender Tok E SCom)
    (st : St) (deltas : Dl) (view : Nat) : Bool :=
  api.validate_block st deltas view

/-- C1 (code evaluation): on a leader proposal for the current view
whose parent resolves with a concrete state, the member aborts the view
with the "Invalid block" error exactly when the structural predicate
reports the deltas VALID (`validate_block` returns `true`) — the inverse
of the claimed polarity: `find_valid_msg` returns `(none, [])` and the
view dies without any state-map write or vote. -/
theorem member_aborts_when_block_valid [DecidableEq Sender]
    (api : MemberApi St Dl Q D B Sig Sender Tok E SCom) (m : DAMember Q) (key : Sender)
    (c : Consensus D Q Dl St SCom) (rest : List (PCMessage Dl Sig Sender))
    (deltas : Dl) (signature : Sig) (pv : Nat) (sender : Sender)
    (parent : DALeaf Q D Dl St SCom) (ps : St)
    (hview : pv = m.cur_view) (hsender : sender = key)
    (hparent : parent_leaf api m c = some parent)
    (hstate : parent.state = Sum.inl ps)
    (hvalid : blockIsValid api ps deltas m.cur_view = true) :
    find_valid_msg api m key c (PCMessage.proposal deltas signature pv sender :: rest) =
      (none, []) := by
  subst hview hsender
  have hvb : api.validate_block ps deltas m.cur_view = true := hvalid
  simp [find_valid_msg, PCMessage.viewNumber, hparent, hstate, hvb]

end MemberTheorems

/-! ## Concrete member instantiations -/

/-- A concrete member API over `Nat` everywhere: a leaf's commit is its
height, a block's commit is itself, proposal signatures validate exactly
when the signature is `1`, the structural pre-check reports every block
invalid (`false`), and applying deltas `d` to state `s` yields `s + d`
except that deltas `0` fail to apply. -/
def natMemberApi : MemberApi Nat Nat Nat Nat Nat Nat Nat Nat Nat Nat :=
  { leafCommit := fun l => l.height
    blockCommit := id
    qcView := id
    qcCommit := id
    validate := fun _ sig _ => decide (sig = 1)
    validate_block := fun _ _ _ => false
    append := fun s d _ => if d = 0 then none else some (s + d)
    make_vote_token := fun _ => Except.ok (some 7)
    sign_da_vote := id
    get_leader := fun _ => 4
    send_ok := true
    now := 0
    senderBytes := fun s => [s] }

/-- The parent leaf stored at view 0 in `consensusA`. -/
def parentA : DALeaf Nat Nat Nat Nat Nat :=
  { view_number := 0, height := 3, justify_qc := 0, parent_commitment := 0,
    deltas := 0, state := Sum.inl 7, rejected := [], timestamp := 0, proposer_id := [4] }

/-- A consensus state whose view 0 decided on digest 5, saved as
`parentA`. -/
def consensusA : Consensus Nat Nat Nat Nat Nat :=
  { state_map := fun v => if v = 0 then some (ViewInner.leaf 5) else none
    saved_leaves := fun d => if d = 5 then some parentA else none }

/-- A consensus state with an empty state map and leaf store. -/
def consensusEmpty : Consensus Nat Nat Nat Nat Nat :=
  { state_map := fun _ => none
    saved_leaves := fun _ => none }

/-- The member executing view 1 over high QC 0. -/
def memberA : DAMember Nat := { cur_view := 1, high_qc := 0 }

/-- The leaf `find_valid_msg natMemberApi memberA 4 consensusA` decides
on for the proposal with deltas 2 and signature 1. -/
def leafA : DALeaf Nat Nat Nat Nat Nat :=
  { view_number := 1, height := 4, justify_qc := 0, parent_commitment := 3,
    deltas := 2, state := Sum.inl 9, rejected := [], timestamp := 0, proposer_id := [4] }

/-- The DA vote sent to the leader during that run. -/
def voteA : DAVote Nat Nat Nat Nat :=
  { justify_qc_commitment := 0, signature := 2, block_commitment := 2,
    current_view := 1, vote_token := 7 }

/-- Witness for C7: with an empty state map, a leader proposal for the
current view leaves the consensus untouched and sends nothing. -/
theorem member_missing_parent_no_effect_witness :
    run_view natMemberApi memberA consensusEmpty [PCMessage.proposal 2 1 1 4] =
      (consensusEmpty, []) :=
  member_missing_parent_no_effect natMemberApi memberA consensusEmpty
    [PCMessage.proposal 2 1 1 4] (Or.inl rfl)

/-- Witness for C8 at the concrete successful run. -/
theorem member_commit_updates_maps_witness :
    (run_view natMemberApi memberA consensusA [PCMessage.proposal 2 1 1 4]).1.state_map 1
        = some (ViewInner.leaf (natMemberApi.leafCommit leafA)) ∧
    (run_view natMemberApi memberA consensusA
        [PCMessage.proposal 2 1 1 4]).1.saved_leaves (natMemberApi.leafCommit leafA)
        = some leafA ∧
    leafA.view_number = memberA.cur_view ∧
    (∃ parent, parent_leaf natMemberApi memberA consensusA = some parent ∧
       leafA.height = parent.height + 1 ∧ leafA.justify_qc = memberA.high_qc ∧
       leafA.parent_commitment = natMemberApi.leafCommit parent) ∧
    leafMapInvariant
      (run_view natMemberApi memberA consensusA [PCMessage.proposal 2 1 1 4]).1 :=
  member_commit_updates_maps natMemberApi memberA consensusA
    [PCMessage.proposal 2 1 1 4] leafA [(4, voteA)] (by decide)
    (by
      intro V d h
      simp only [consensusA] at h ⊢
      by_cases hV : V = 0
      · subst hV
        simp at h
        subst h
        exact ⟨parentA, by simp, rfl⟩
      · rw [if_neg hV] at h
        exact absurd h (by simp))
    (by
      intro V d hV h
      simp only [consensusA] at h
      by_cases h0 : V = 0
      · subst h0
        simp at h
        subst h
        decide
      · rw [if_neg h0] at h
        exact absurd h (by simp))

/-- Witness for the amended C2: a leader proposal for the current view
with deltas that append fine but a signature that fails validation is
skipped, leaving the run equal to the run on the remaining messages. -/
theorem member_bad_signature_continues_witness :
    find_valid_msg natMemberApi memberA 4 consensusA [PCMessage.proposal 2 0 1 4] =
      find_valid_msg natMemberApi memberA 4 consensusA [] :=
  member_bad_signature_continues natMemberApi memberA 4 consensusA [] 2 0 1 4
    parentA 7 9 rfl rfl (by decide) rfl rfl (by decide) (by decide)

/-- The same member API except that the structural predicate reports
every block valid. -/
def validBlockApi : MemberApi Nat Nat Nat Nat Nat Nat Nat Nat Nat Nat :=
  { natMemberApi with validate_block := fun _ _ _ => true }

/-- Witness for C1: with the structural predicate reporting the block
valid, the otherwise perfectly acceptable leader proposal (the one
`natMemberApi` accepts in the C8 witness) kills the view. -/
theorem member_aborts_when_block_valid_witness :
    find_valid_msg validBlockApi memberA 4 consensusA [PCMessage.proposal 2 1 1 4] =
      (none, []) :=
  member_aborts_when_block_valid validBlockApi memberA 4 consensusA [] 2 1 1 4 parentA 7
    rfl rfl (by decide) rfl rfl

/-- C2 counterexample: the claim says the leader signature is verified
before the state apply, so an invalid-signature proposal can never cause
the fatal append-failure abort. On the code the apply runs first: the
first proposal below carries an invalid signature (`validate` is false)
and deltas that fail to append, and the member aborts the whole view
with `(none, [])` — it never reaches the second, perfectly valid
proposal, which alone would have been accepted. -/
theorem member_signature_checked_after_append :
    natMemberApi.validate 4 0 (natMemberApi.blockCommit 0) = false ∧
    natMemberApi.append 7 0 1 = none ∧
    find_valid_msg natMemberApi memberA 4 consensusA
        [PCMessage.proposal 0 0 1 4, PCMessage.proposal 2 1 1 4] = (none, []) ∧
    find_valid_msg natMemberApi memberA 4 consensusA
        [PCMessage.proposal 2 1 1 4] = (some leafA, [(4, voteA)]) := by
  exact ⟨by decide, by decide, by decide, by decide⟩

end HotShot
